import Mathlib

/-!
Verification of the go-ffmpeg rendition transcode orchestrator.

Shallow embedding of the Go sources:
  * `utils/utils.go` — `ParseFrameRate`, `ParseBitrate`, `PrepareOutputDir`,
    `CheckRequiredTools`
  * the `ffmpeg` package (`VideoProcessor`) — `NewVideoProcessor`,
    `ProcessVideo`, `GenerateMasterPlaylist`, `UploadToS3`, `InitAWSClient`
  * `main.go` — the CLI `run` flow

Pure string work is embedded over `List Char` with structural recursion so
that every definition evaluates inside the kernel.
-/

/- ===================== Go string / strconv primitives ===================== -/

/-- Go `unicode.IsSpace` restricted to the Latin-1 range, which is what
`strings.TrimSpace` uses for the probe output handled here
(space, tab, newline, vertical tab, form feed, carriage return, NEL, NBSP). -/
def goIsSpace (c : Char) : Bool :=
  c == ' ' || c == '\t' || c == '\n' || c == Char.ofNat 11 || c == Char.ofNat 12 ||
  c == '\r' || c == Char.ofNat 133 || c == Char.ofNat 160

/-- Go `strings.TrimSpace`: drop leading and trailing whitespace. -/
def goTrimSpace (cs : List Char) : List Char :=
  ((cs.dropWhile goIsSpace).reverse.dropWhile goIsSpace).reverse

/-- Go `strings.Split(s, sep)` for a one-character separator.
`splitOnChar sep []` is `[[]]`, matching `strings.Split("", "/") = [""]`. -/
def splitOnChar (sep : Char) : List Char → List (List Char)
  | [] => [[]]
  | c :: rest =>
    let r := splitOnChar sep rest
    if c == sep then [] :: r
    else
      match r with
      | [] => [[c]]
      | h :: t => (c :: h) :: t

/-- ASCII decimal digit test, as in Go `strconv` base-10 parsing. -/
def goIsDigit (c : Char) : Bool := '0' ≤ c && c ≤ '9'

/-- Value of a list of decimal digits, most significant first. -/
def decimalValue (ds : List Char) : Nat :=
  ds.foldl (fun acc c => acc * 10 + (c.toNat - '0'.toNat)) 0

/-- Go `strconv.Atoi` on a 64-bit platform: optional sign, base-10 digits.
Returns the pair (value, ok).  On a syntax error the value is 0 and ok is
false; on range overflow the value is clamped to the int64 bounds and ok is
false — both callers in this repository discard the error and keep the value. -/
def goAtoiChars (cs : List Char) : Int × Bool :=
  match cs with
  | [] => (0, false)
  | c :: rest =>
    let neg : Bool := c == '-'
    let digits : List Char := if c == '-' || c == '+' then rest else cs
    if digits.isEmpty || !digits.all goIsDigit then (0, false)
    else
      let n : Nat := decimalValue digits
      if neg then
        if n > 2 ^ 63 then (-(2 ^ 63 : Int), false) else (-(n : Int), true)
      else
        if n ≥ 2 ^ 63 then ((2 : Int) ^ 63 - 1, false) else ((n : Int), true)

/-- Go `strconv.Atoi` on a `String`. -/
def goAtoi (s : String) : Int × Bool := goAtoiChars s.data

/- ===================== utils/utils.go ===================== -/

/-- `utils.ParseFrameRate` (utils/utils.go:12-23): trim, split on `/`;
with exactly two parts, Atoi both (errors discarded), coerce a zero
denominator to 1, return the Go integer quotient (truncation toward zero);
otherwise return the default 30. -/
def parseFrameRate (frameRate : String) : Int :=
  match splitOnChar '/' (goTrimSpace frameRate.data) with
  | [p1, p2] =>
    let numerator := (goAtoiChars p1).1
    let denominator0 := (goAtoiChars p2).1
    let denominator := if denominator0 = 0 then 1 else denominator0
    Int.tdiv numerator denominator
  | _ => 30

/-- `strings.HasSuffix(s, "k")` for the one-character suffix used here. -/
def strHasSuffixK (cs : List Char) : Bool := cs.getLast? == some 'k'

/-- `utils.ParseBitrate` (utils/utils.go:25-31): if the string ends in `k`,
Atoi the rest (error discarded, so a malformed prefix yields 0); otherwise
return the default 1000. -/
def parseBitrate (bitrate : String) : Int :=
  if strHasSuffixK bitrate.data then (goAtoiChars bitrate.data.dropLast).1
  else 1000

/- ===================== rendition ladder configuration ===================== -/

/-- `types.VideoProcessingConfig` (types/types.go), positionally aligned
parallel lists plus scalar encoder settings. -/
structure VideoProcessingConfig where
  Outputs : List String
  Resolutions : List String
  Bitrates : List String
  AudioRates : List String
  Levels : List String
  Preset : String
  CRF : Int
  SegmentTime : Int
deriving DecidableEq, Repr

/-- The configuration installed by `ffmpeg.NewVideoProcessor`. -/
def defaultConfig : VideoProcessingConfig :=
  ⟨["1080", "720"], ["1920x1080", "1280x720"], ["16000k", "6000k"],
   ["128k", "96k"], ["4.2", "3.1"], "slow", 12, 4⟩

/- ===================== derived encoder parameters ===================== -/

/-- The numeric encoder parameters derived per rendition inside
`ffmpeg.ProcessVideo`:
  maxrate  := `int(float64(bitrateValue) * 1.2)`
  bufsize  := `bitrateValue * 2`
  gopSize  := `frameRate * vp.Config.SegmentTime` -/
structure EncodeParameters where
  maxrateKbps : Int
  bufsizeKbps : Int
  gopSize : Int
deriving DecidableEq, Repr

/-- `int(float64(v) * 1.2)` from `ffmpeg.ProcessVideo`, embedded exactly for
the relevant range.  The float64 nearest to 1.2 is 1.2·(1 − δ) with
δ ≈ 3.7e−17, so for 0 ≤ v ≤ 2^49 the double product lies strictly between
⌊6v/5⌋ and ⌊6v/5⌋ + 1 when 5 does not divide v, and rounds to exactly 6v/5
when 5 divides v (the error is below half an ulp); Go conversion to int
truncates toward zero, hence the result is ⌊6v/5⌋, i.e. `Int.tdiv (6*v) 5`
for nonnegative v. -/
def goMaxrateKbps (v : Int) : Int := Int.tdiv (6 * v) 5

/-- The per-rendition parameter derivation of `ffmpeg.ProcessVideo`
(spec name `deriveEncodeParameters`). -/
def deriveEncodeParameters (videoBitrateKbps frameRate segmentSeconds : Int) :
    EncodeParameters :=
  ⟨goMaxrateKbps videoBitrateKbps, videoBitrateKbps * 2, frameRate * segmentSeconds⟩

/- ===================== master playlist generation ===================== -/

/-- Go `path/filepath.Base` for slash-separated paths: empty input gives
".", trailing separators are dropped, the last component is returned, and an
all-separator path gives "/". -/
def filepathBase (p : String) : String :=
  if p = "" then "."
  else
    let cs := (p.data.reverse.dropWhile (fun c => c == '/')).reverse
    if cs.isEmpty then "/"
    else String.mk ((cs.reverse.takeWhile (fun c => !(c == '/'))).reverse)

/-- One header-plus-reference pair written by
`ffmpeg.GenerateMasterPlaylist` for entry (output name, resolution, bitrate). -/
def masterEntry (x : String × String × String) : String :=
  "#EXT-X-STREAM-INF:BANDWIDTH=" ++ toString ((parseBitrate x.2.2 + 128) * 1000) ++
    ",RESOLUTION=" ++ x.2.1 ++ "\n" ++ filepathBase x.1 ++ ".m3u8\n"

/-- `ffmpeg.GenerateMasterPlaylist`: the text written to
`<outputDir>/playlist.m3u8`.  The Go loop ranges over `Config.Outputs` and
indexes `Resolutions` and `Bitrates` at the same position; the zip below is
that traversal for aligned lists (the lists of the installed configuration
are aligned). -/
def generateMasterPlaylist (cfg : VideoProcessingConfig) : String :=
  "#EXTM3U\n" ++ "#EXT-X-VERSION:3\n" ++
    String.join ((cfg.Outputs.zip (cfg.Resolutions.zip cfg.Bitrates)).map masterEntry)

/- ===================== ProcessVideo orchestration ===================== -/

deriving instance DecidableEq for Except

/-- Observable outcome of one `ffmpeg.ProcessVideo` call:
which renditions had their encoder invocation run to completion, the parsed
frame rate, whether the master playlist step ran, and the returned value. -/
structure JobRun where
  ranRenditions : List Nat
  frameRate : Int
  manifestWritten : Bool
  outcome : Except String Unit
deriving DecidableEq, Repr

/-- Contents of `errChan` after every worker finished, in send order.
`encodeErr i` is the underlying tool error of rendition `i` (none on
success); `order` is the order in which the workers completed (a permutation
of the rendition indices — the goroutine scheduler chooses it).  A failing
worker sends `error processing resolution <resolution>: <err>`. -/
def channelMessages (cfg : VideoProcessingConfig) (encodeErr : Nat → Option String)
    (order : List Nat) : List String :=
  order.filterMap fun i =>
    (encodeErr i).map fun e =>
      "error processing resolution " ++ cfg.Resolutions.getD i "" ++ ": " ++ e

/-- `ffmpeg.ProcessVideo`: probe the frame rate (a probe execution failure
returns before any worker is spawned); otherwise parse the probe text, spawn
one worker per rendition, wait for all of them, drain the error channel, and
either fail with the first received error or write the master playlist. -/
def processVideo (cfg : VideoProcessingConfig) (probe : Except String String)
    (encodeErr : Nat → Option String) (order : List Nat) : JobRun :=
  match probe with
  | .error e => ⟨[], 0, false, .error ("failed to get frame rate: " ++ e)⟩
  | .ok probeOut =>
    let fr := parseFrameRate probeOut
    let ran := List.range cfg.Resolutions.length
    match channelMessages cfg encodeErr order with
    | [] => ⟨ran, fr, true, .ok ()⟩
    | m :: _ => ⟨ran, fr, false, .error ("error during video processing: " ++ m)⟩

/- ===================== UploadToS3 ===================== -/

/-- A directory entry of the finished output tree. -/
inductive FsTree where
  | file (name : String)
  | dir (name : String) (children : List FsTree)

mutual

/-- Paths of the regular files visited by `filepath.Walk` below one entry,
directories skipped, joined with the platform separator `sep`. -/
def walkFilePaths (sep dirPath : String) : FsTree → List String
  | .file name => [dirPath ++ sep ++ name]
  | .dir name children => walkFilePathsList sep (dirPath ++ sep ++ name) children

/-- `walkFilePaths` over a list of sibling entries, in listed order. -/
def walkFilePathsList (sep dirPath : String) : List FsTree → List String
  | [] => []
  | t :: ts => walkFilePaths sep dirPath t ++ walkFilePathsList sep dirPath ts

end

/-- Go `filepath.ToSlash`: replace the platform separator by `/`. -/
def toSlash (sep : Char) (s : String) : String :=
  String.mk (s.data.map fun c => if c == sep then '/' else c)

/-- The object keys passed to `PutObject` by `ffmpeg.UploadToS3` when walking
`outputDir` with contents `entries`: the code sets
`newPath := filepath.ToSlash(path)` for every regular file `path` and uses
`newPath` as the key.  (`relPath := filepath.Rel(vp.OutputDir, path)` is also
computed, but is only interpolated into the upload failure message.) -/
def uploadToS3Keys (sep : Char) (outputDir : String) (entries : List FsTree) :
    List String :=
  (walkFilePathsList (String.mk [sep]) outputDir entries).map (toSlash sep)

/- ===================== PrepareOutputDir filesystem model ===================== -/

/-- A filesystem path as a list of components. -/
abbrev FsPath := List String

/-- Kind of a filesystem entry. -/
inductive FsNode where
  | file
  | dir
deriving DecidableEq, Repr

/-- A finite filesystem: an association list from paths to entry kinds. -/
abbrev Fs := List (FsPath × FsNode)

/-- First entry stored for `p`, if any. -/
def Fs.lookup (fs : Fs) (p : FsPath) : Option FsNode :=
  match fs with
  | [] => none
  | (q, n) :: rest => if q = p then some n else Fs.lookup rest p

/-- `pathUnder dir p`: `p` is `dir` itself or lies below it
(component-wise path containment). -/
def pathUnder (dir p : FsPath) : Bool :=
  match dir, p with
  | [], _ => true
  | _ :: _, [] => false
  | d :: ds, q :: qs => d == q && pathUnder ds qs

/-- `os.RemoveAll(dir)`: delete `dir` and everything below it. -/
def removeAll (dir : FsPath) (fs : Fs) : Fs :=
  fs.filter fun e => !pathUnder dir e.1

/-- The nonempty leading portions of `dir`, shortest first: the directories
`os.MkdirAll(dir)` ensures exist (missing parents included). -/
def ancestorsOf (dir : FsPath) : List FsPath :=
  (List.range dir.length).map fun k => dir.take (k + 1)

/-- Create each listed directory in turn: an existing directory is kept, a
missing one is appended, an existing regular file makes the call fail
(`ENOTDIR`), as `os.MkdirAll` does. -/
def mkdirPaths : List FsPath → Fs → Except Unit Fs
  | [], fs => .ok fs
  | p :: rest, fs =>
    match Fs.lookup fs p with
    | some .file => .error ()
    | some .dir => mkdirPaths rest fs
    | none => mkdirPaths rest (fs ++ [(p, .dir)])

/-- `os.MkdirAll(dir, os.ModePerm)`. -/
def mkdirAll (dir : FsPath) (fs : Fs) : Except Unit Fs :=
  mkdirPaths (ancestorsOf dir) fs

/-- `utils.PrepareOutputDir` (utils/utils.go:43-54): `os.RemoveAll` then
`os.MkdirAll` on the output directory. -/
def prepareOutputDir (dir : FsPath) (fs : Fs) : Except Unit Fs :=
  mkdirAll dir (removeAll dir fs)

/- ===================== main.go run flow ===================== -/

/-- The externally visible stages of one `run` invocation of main.go, in
execution order. -/
inductive Stage where
  | statInput
  | prepareDir
  | checkTools
  | encode
  | initAws
  | upload
deriving DecidableEq, Repr

/-- The environment one CLI invocation runs against: flag values, the
filesystem, tool availability, the behavior of the external processes, the
`.env` load result, and the upload result. -/
structure CliWorld where
  inputExists : Bool
  outputDirFlag : FsPath
  s3Bucket : String
  fs : Fs
  toolsOk : Bool
  probe : Except String String
  encodeErr : Nat → Option String
  completionOrder : List Nat
  envLoadOk : Bool
  uploadErr : Option String

/-- main.go: `if processor.OutputDir == "" { processor.OutputDir = "./output" }`.
The empty path plays the role of the unset flag. -/
def effectiveOutputDir (w : CliWorld) : FsPath :=
  if w.outputDirFlag = [] then ["output"] else w.outputDirFlag

/-- The `RunE` body of main.go: stat the input file, prepare the output
directory, check the required tools, run `ProcessVideo`, initialize the AWS
client unconditionally, and upload only when a bucket is configured.
Returns the stages reached, in order, and the result of the invocation. -/
def run (w : CliWorld) : List Stage × Except String Unit :=
  if !w.inputExists then
    ([.statInput], .error "input file does not exist")
  else
    match prepareOutputDir (effectiveOutputDir w) w.fs with
    | .error _ =>
      ([.statInput, .prepareDir], .error "failed to create output directory")
    | .ok _ =>
      if !w.toolsOk then
        ([.statInput, .prepareDir, .checkTools], .error "is not installed or in PATH")
      else
        match (processVideo defaultConfig w.probe w.encodeErr w.completionOrder).outcome with
        | .error e =>
          ([.statInput, .prepareDir, .checkTools, .encode],
           .error ("error processing video: " ++ e))
        | .ok () =>
          if !w.envLoadOk then
            ([.statInput, .prepareDir, .checkTools, .encode, .initAws],
             .error "failed to initialize AWS client: error loading .env file")
          else if w.s3Bucket ≠ "" then
            match w.uploadErr with
            | some e =>
              ([.statInput, .prepareDir, .checkTools, .encode, .initAws, .upload],
               .error ("error uploading to S3: " ++ e))
            | none =>
              ([.statInput, .prepareDir, .checkTools, .encode, .initAws, .upload], .ok ())
          else
            ([.statInput, .prepareDir, .checkTools, .encode, .initAws], .ok ())

/- ===================== transcode task pool ===================== -/

/-- State of the `ProcessVideo` worker pool: how many renditions the main
loop has launched, which rendition indices currently hold one of the `N`
semaphore slots with an encoder in flight, and which have finished. -/
structure PoolState where
  launched : Nat
  running : List Nat
  finished : List Nat
deriving DecidableEq, Repr

/-- Pool state before the launch loop starts. -/
def initialPool : PoolState := ⟨0, [], []⟩

/-- One scheduler step of the pool with semaphore capacity `N`
(`numCPUs`) and `R` renditions.  The main goroutine sends on `sem` before
spawning the next worker in ladder order, so a launch requires a free slot;
a worker releases its slot exactly when its encoder invocation finishes. -/
inductive PoolStep (N R : Nat) : PoolState → PoolState → Prop where
  | launch (s : PoolState) (h1 : s.launched < R) (h2 : s.running.length < N) :
      PoolStep N R s ⟨s.launched + 1, s.launched :: s.running, s.finished⟩
  | finish (s : PoolState) (i : Nat) (h : i ∈ s.running) :
      PoolStep N R s ⟨s.launched, s.running.erase i, i :: s.finished⟩

/-- Pool states reachable from the initial state. -/
inductive PoolReachable (N R : Nat) : PoolState → Prop where
  | init : PoolReachable N R initialPool
  | step {s s' : PoolState} (hr : PoolReachable N R s) (hs : PoolStep N R s s') :
      PoolReachable N R s'

/- ===================== claim theorems ===================== -/

/-- C3 (amended): when the trimmed input splits on `/` into exactly two parts
that both parse as integers N and D, `ParseFrameRate` returns N when D = 0
and the truncated quotient N div D otherwise; when the split does not give
exactly two parts it returns the default 30; when the split gives two parts,
the result is always the quotient of the (error-discarding) Atoi values with
a zero denominator coerced to 1 — an unparseable part contributes 0 rather
than triggering the default. -/
theorem parseFrameRate_spec :
    (∀ (s : String) (p1 p2 : List Char) (N D : Int),
        splitOnChar '/' (goTrimSpace s.data) = [p1, p2] →
        goAtoiChars p1 = (N, true) → goAtoiChars p2 = (D, true) →
        parseFrameRate s = if D = 0 then N else Int.tdiv N D) ∧
    (∀ s : String, (splitOnChar '/' (goTrimSpace s.data)).length ≠ 2 →
        parseFrameRate s = 30) ∧
    (∀ (s : String) (p1 p2 : List Char),
        splitOnChar '/' (goTrimSpace s.data) = [p1, p2] →
        parseFrameRate s =
          Int.tdiv (goAtoiChars p1).1
            (if (goAtoiChars p2).1 = 0 then 1 else (goAtoiChars p2).1)) := by
  have base : ∀ (s : String) (p1 p2 : List Char),
      splitOnChar '/' (goTrimSpace s.data) = [p1, p2] →
      parseFrameRate s =
        Int.tdiv (goAtoiChars p1).1
          (if (goAtoiChars p2).1 = 0 then 1 else (goAtoiChars p2).1) := by
    intro s p1 p2 h
    unfold parseFrameRate
    rw [h]
  refine ⟨?_, ?_, base⟩
  · intro s p1 p2 N D h hN hD
    rw [base s p1 p2 h, hN, hD]
    by_cases hD0 : D = 0
    · simp [hD0]
    · simp [hD0]
  · intro s h
    unfold parseFrameRate
    generalize hl : splitOnChar '/' (goTrimSpace s.data) = l at h ⊢
    rcases l with _ | ⟨a, _ | ⟨b, _ | ⟨c, t⟩⟩⟩
    · rfl
    · rfl
    · simp at h
    · rfl

/-- C3 witness: the theorem applied to the well-formed probe output
30000/1001 and to a non-conforming string. -/
theorem parseFrameRate_spec_witness :
    parseFrameRate "30000/1001" = 29 ∧ parseFrameRate "abc" = 30 := by
  constructor
  · have h := parseFrameRate_spec.1 "30000/1001" ['3', '0', '0', '0', '0']
      ['1', '0', '0', '1'] 30000 1001 (by decide) (by decide) (by decide)
    rw [h]; decide
  · exact parseFrameRate_spec.2.1 "abc" (by decide)

/-- C3 counterexample: "a/b" splits into exactly two parts and both fail to
parse as integers, yet `ParseFrameRate` returns 0 (the discarded-error Atoi
value), not the default 30 the claim requires for that case. -/
theorem parseFrameRate_counterexample :
    splitOnChar '/' (goTrimSpace "a/b".data) = [['a'], ['b']] ∧
    (goAtoiChars ['a']).2 = false ∧ (goAtoiChars ['b']).2 = false ∧
    parseFrameRate "a/b" = 0 ∧ (0 : Int) ≠ 30 := by decide

/-- C4 (amended): for a digit string followed by the `k` suffix,
`ParseBitrate` returns the parsed integer; without the `k` suffix it returns
the default 1000; with the suffix present the result is always the
(error-discarding) Atoi value of the prefix, so an unparseable prefix yields
0 rather than the default. -/
theorem parseBitrate_spec :
    (∀ (cs : List Char) (v : Int), goAtoiChars cs = (v, true) →
        parseBitrate (String.mk (cs ++ ['k'])) = v) ∧
    (∀ s : String, strHasSuffixK s.data = false → parseBitrate s = 1000) ∧
    (∀ s : String, strHasSuffixK s.data = true →
        parseBitrate s = (goAtoiChars s.data.dropLast).1) := by
  refine ⟨?_, ?_, ?_⟩
  · intro cs v h
    have h1 : strHasSuffixK (String.mk (cs ++ ['k'])).data = true := by
      show strHasSuffixK (cs ++ ['k']) = true
      unfold strHasSuffixK
      rw [List.getLast?_concat]
      rfl
    unfold parseBitrate
    simp only [h1, if_true]
    show (goAtoiChars (cs ++ ['k']).dropLast).1 = v
    rw [List.dropLast_concat, h]
  · intro s h
    unfold parseBitrate
    simp [h]
  · intro s h
    unfold parseBitrate
    simp [h]

/-- C4 witness: the theorem applied to the ladder bitrate 6000k and to a
suffix-free string. -/
theorem parseBitrate_spec_witness :
    parseBitrate (String.mk (['6', '0', '0', '0'] ++ ['k'])) = 6000 ∧
    parseBitrate "abc" = 1000 := by
  constructor
  · exact parseBitrate_spec.1 ['6', '0', '0', '0'] 6000 (by decide)
  · exact parseBitrate_spec.2.1 "abc" (by decide)

/-- C4 counterexample: "xk" carries the `k` suffix but its prefix fails to
parse, and `ParseBitrate` returns 0, not the default 1000 the claim requires
for that case. -/
theorem parseBitrate_counterexample :
    strHasSuffixK "xk".data = true ∧ (goAtoiChars ['x']).2 = false ∧
    parseBitrate "xk" = 0 ∧ (0 : Int) ≠ 1000 := by decide

/-- C5 (amended): the derived parameters are
maxrateKbps = trunc(videoBitrateKbps · 1.2) — which agrees with the exact
product (and hence with its ceiling) exactly on multiples of 5, in
particular on the ladder values — bufsizeKbps = videoBitrateKbps · 2 and
gopSize = frameRate · segmentSeconds; for (6000, 30, 4) this gives
(7200, 12000, 120). -/
theorem deriveEncodeParameters_spec :
    (∀ m fps s : Int, (deriveEncodeParameters (5 * m) fps s).maxrateKbps = 6 * m) ∧
    (∀ v fps s : Int, (deriveEncodeParameters v fps s).bufsizeKbps = v * 2) ∧
    (∀ v fps s : Int, (deriveEncodeParameters v fps s).gopSize = fps * s) ∧
    deriveEncodeParameters 6000 30 4 = ⟨7200, 12000, 120⟩ := by
  refine ⟨?_, fun v fps s => rfl, fun v fps s => rfl, by decide⟩
  intro m fps s
  show Int.tdiv (6 * (5 * m)) 5 = 6 * m
  rw [show (6 : Int) * (5 * m) = 5 * (6 * m) by ring]
  exact Int.mul_tdiv_cancel_left (6 * m) (by norm_num)

/-- C5 counterexample: at videoBitrateKbps = 1 the code truncates the float
product 1.19999999999999996 to 1, while the claimed ceil(1 · 1.2) is 2. -/
theorem deriveEncodeParameters_counterexample :
    (deriveEncodeParameters 1 30 4).maxrateKbps = 1 ∧
    ⌈(1 : ℚ) * (6 / 5)⌉ = 2 ∧ (1 : Int) ≠ 2 := by
  refine ⟨by decide, ?_, by decide⟩
  rw [Int.ceil_eq_iff]
  norm_num

/-- C6: for the installed 2-rendition ladder the master manifest is exactly
the two-line preamble, then per rendition in ladder order one
`#EXT-X-STREAM-INF` line with BANDWIDTH = (videoBitrateKbps + 128) · 1000 —
16128000 and 6128000 — and RESOLUTION, followed by that rendition's playlist
file name, with nothing after. -/
theorem generateMasterPlaylist_default_content :
    generateMasterPlaylist defaultConfig =
      "#EXTM3U\n" ++ "#EXT-X-VERSION:3\n" ++
        ("#EXT-X-STREAM-INF:BANDWIDTH=16128000,RESOLUTION=1920x1080\n" ++ "1080.m3u8\n") ++
        ("#EXT-X-STREAM-INF:BANDWIDTH=6128000,RESOLUTION=1280x720\n" ++ "720.m3u8\n") := by
  decide

/-- C2 (code bug): uploading output directory "output" containing a/b.ts and
playlist.m3u8 calls publish exactly twice, but with the slash-normalized
full walk paths as keys — "output/a/b.ts" and "output/playlist.m3u8" — not
the outputDir-relative keys "a/b.ts" and "playlist.m3u8" the claim (and the
unused relPath in the code) call for. -/
theorem uploadToS3_keys_not_relative :
    uploadToS3Keys '/' "output"
        [FsTree.dir "a" [FsTree.file "b.ts"], FsTree.file "playlist.m3u8"] =
      ["output/a/b.ts", "output/playlist.m3u8"] ∧
    (["output/a/b.ts", "output/playlist.m3u8"] : List String) ≠
      ["a/b.ts", "playlist.m3u8"] := by decide

/-- C1 (amended): every rendition runs to completion regardless of failures;
if any rendition fails, ProcessVideo fails and skips the master manifest,
carrying the first error in the order the workers reported (completion
order, not necessarily ladder order); if none fails, the manifest step runs.
`order` is the completion order of the workers, a permutation of the
rendition indices. -/
theorem processVideo_aggregation (cfg : VideoProcessingConfig) (out : String)
    (encodeErr : Nat → Option String) (order : List Nat)
    (hperm : order.Perm (List.range cfg.Resolutions.length)) :
    ((processVideo cfg (.ok out) encodeErr order).ranRenditions =
      List.range cfg.Resolutions.length) ∧
    ((∀ i < cfg.Resolutions.length, encodeErr i = none) →
      processVideo cfg (.ok out) encodeErr order =
        ⟨List.range cfg.Resolutions.length, parseFrameRate out, true, .ok ()⟩) ∧
    (∀ i, i < cfg.Resolutions.length → encodeErr i ≠ none →
      ∃ m ms, channelMessages cfg encodeErr order = m :: ms ∧
        processVideo cfg (.ok out) encodeErr order =
          ⟨List.range cfg.Resolutions.length, parseFrameRate out, false,
            .error ("error during video processing: " ++ m)⟩) := by
  refine ⟨?_, ?_, ?_⟩
  · unfold processVideo
    cases channelMessages cfg encodeErr order <;> rfl
  · intro hall
    have hch : channelMessages cfg encodeErr order = [] := by
      apply List.filterMap_eq_nil_iff.mpr
      intro i hi
      have : i < cfg.Resolutions.length := List.mem_range.mp (hperm.mem_iff.mp hi)
      rw [hall i this]
      rfl
    unfold processVideo
    rw [hch]
  · intro i hi hne
    have hmem : i ∈ order := hperm.mem_iff.mpr (List.mem_range.mpr hi)
    have hch : channelMessages cfg encodeErr order ≠ [] := by
      intro hnil
      have := List.filterMap_eq_nil_iff.mp hnil i hmem
      rcases he : encodeErr i with _ | e
      · exact hne he
      · rw [he] at this
        simp at this
    rcases hc : channelMessages cfg encodeErr order with _ | ⟨m, ms⟩
    · exact absurd hc hch
    · refine ⟨m, ms, rfl, ?_⟩
      unfold processVideo
      rw [hc]

/-- C1 witness: the theorem applied to the installed ladder with completion
order [1, 0] and no failures. -/
theorem processVideo_aggregation_witness :
    (processVideo defaultConfig (.ok "30/1") (fun _ => none) [1, 0]).ranRenditions =
      [0, 1] ∧
    processVideo defaultConfig (.ok "30/1") (fun _ => none) [1, 0] =
      ⟨[0, 1], 30, true, .ok ()⟩ := by
  have h := processVideo_aggregation defaultConfig "30/1" (fun _ => none) [1, 0] (by decide)
  constructor
  · rw [h.1]; decide
  · rw [h.2.1 (fun i _ => rfl)]; decide

/-- C1 counterexample: with both renditions failing and completion order
[1, 0], ProcessVideo returns rendition 1's error although the first error in
ladder order is rendition 0's. -/
theorem processVideo_error_not_ladder_order :
    ([1, 0] : List Nat).Perm (List.range defaultConfig.Resolutions.length) ∧
    (processVideo defaultConfig (.ok "30/1")
        (fun i => if i = 0 then some "boom0" else some "boom1") [1, 0]).outcome =
      .error "error during video processing: error processing resolution 1280x720: boom1" ∧
    ("error during video processing: error processing resolution 1280x720: boom1" : String) ≠
      "error during video processing: error processing resolution 1920x1080: boom0" := by
  decide

/-- C8: failure to execute the frame-rate prober aborts the job before any
encoder worker is spawned; with a running prober, every rendition's worker is
spawned whatever the probe text, and malformed text alone never makes the job
fail. -/
theorem processVideo_probe_policy :
    (∀ (cfg : VideoProcessingConfig) (e : String) (encodeErr : Nat → Option String)
        (order : List Nat),
        processVideo cfg (.error e) encodeErr order =
          ⟨[], 0, false, .error ("failed to get frame rate: " ++ e)⟩) ∧
    (∀ (cfg : VideoProcessingConfig) (out : String) (encodeErr : Nat → Option String)
        (order : List Nat),
        (processVideo cfg (.ok out) encodeErr order).ranRenditions =
          List.range cfg.Resolutions.length) ∧
    (∀ (cfg : VideoProcessingConfig) (out : String) (encodeErr : Nat → Option String)
        (order : List Nat), channelMessages cfg encodeErr order = [] →
        (processVideo cfg (.ok out) encodeErr order).outcome = .ok ()) := by
  refine ⟨fun cfg e encodeErr order => rfl, ?_, ?_⟩
  · intro cfg out encodeErr order
    unfold processVideo
    cases channelMessages cfg encodeErr order <;> rfl
  · intro cfg out encodeErr order hch
    unfold processVideo
    rw [hch]

/-- C8 witness: a failing prober process on the installed ladder, and a
succeeding prober with malformed output text. -/
theorem processVideo_probe_policy_witness :
    processVideo defaultConfig (.error "exit status 1") (fun _ => none) [0, 1] =
      ⟨[], 0, false, .error "failed to get frame rate: exit status 1"⟩ ∧
    (processVideo defaultConfig (.ok "not a ratio") (fun _ => none) [0, 1]).outcome =
      .ok () := by
  constructor
  · exact processVideo_probe_policy.1 defaultConfig "exit status 1" (fun _ => none) [0, 1]
  · exact processVideo_probe_policy.2.2 defaultConfig "not a ratio" (fun _ => none) [0, 1]
      (by decide)

/-- C7: in every reachable pool state at most N encoder invocations hold a
semaphore slot simultaneously, every launched rendition is either running or
finished, and consequently a rendition beyond the first N can only have been
launched after at least launched − N earlier ones finished. -/
theorem pool_concurrency_bound (N R : Nat) (s : PoolState)
    (h : PoolReachable N R s) :
    s.running.length ≤ N ∧
    s.launched = s.running.length + s.finished.length ∧
    s.launched ≤ N + s.finished.length := by
  have main : s.running.length ≤ N ∧
      s.launched = s.running.length + s.finished.length := by
    induction h with
    | init => exact ⟨Nat.zero_le N, rfl⟩
    | step hr hs ih =>
      obtain ⟨ih1, ih2⟩ := ih
      cases hs with
      | launch h1 h2 =>
        constructor
        · simp only [List.length_cons]
          omega
        · simp only [List.length_cons]
          omega
      | finish i hi =>
        have hlen := List.length_erase_of_mem hi
        have hpos := List.length_pos_of_mem hi
        constructor
        · rw [hlen]
          omega
        · simp only [List.length_cons]
          rw [hlen]
          omega
  exact ⟨main.1, main.2, by omega⟩

/-- C7 witness: the state after launching the first rendition on a pool of
capacity 1 with 2 renditions. -/
theorem pool_concurrency_bound_witness :
    (⟨1, [0], []⟩ : PoolState).running.length ≤ 1 ∧
    (⟨1, [0], []⟩ : PoolState).launched =
      (⟨1, [0], []⟩ : PoolState).running.length +
        (⟨1, [0], []⟩ : PoolState).finished.length ∧
    (⟨1, [0], []⟩ : PoolState).launched ≤
      1 + (⟨1, [0], []⟩ : PoolState).finished.length :=
  pool_concurrency_bound 1 2 ⟨1, [0], []⟩
    (PoolReachable.step PoolReachable.init
      (PoolStep.launch initialPool (by decide) (by decide)))

/-- Appending a fresh entry does not change an existing lookup. -/
theorem lookup_append_of_some (fs : Fs) (q : FsPath) (n : FsNode) (p : FsPath)
    (m : FsNode) (h : Fs.lookup fs p = some m) :
    Fs.lookup (fs ++ [(q, n)]) p = some m := by
  induction fs with
  | nil => simp [Fs.lookup] at h
  | cons e rest ih =>
    rw [List.cons_append]
    unfold Fs.lookup at h ⊢
    by_cases he : e.1 = p
    · simpa [he] using h
    · simp only [he, if_false] at h ⊢
      exact ih h

/-- Appending an entry to a map without a binding for `p` makes the lookup
find exactly the appended entry when it matches. -/
theorem lookup_append_of_none (fs : Fs) (q : FsPath) (n : FsNode) (p : FsPath)
    (h : Fs.lookup fs p = none) :
    Fs.lookup (fs ++ [(q, n)]) p = if q = p then some n else none := by
  induction fs with
  | nil => simp [Fs.lookup]
  | cons e rest ih =>
    rw [List.cons_append]
    unfold Fs.lookup at h ⊢
    by_cases he : e.1 = p
    · simp [he] at h
    · simp only [he, if_false] at h ⊢
      exact ih h

/-- `removeAll` erases exactly the bindings at or below `dir`. -/
theorem lookup_removeAll (dir : FsPath) (fs : Fs) (p : FsPath) :
    Fs.lookup (removeAll dir fs) p =
      if pathUnder dir p then none else Fs.lookup fs p := by
  induction fs with
  | nil =>
    cases hu : pathUnder dir p <;> simp [removeAll, Fs.lookup, hu]
  | cons e rest ih =>
    obtain ⟨q, n⟩ := e
    cases hq : pathUnder dir q
    · have hstep : removeAll dir ((q, n) :: rest) = (q, n) :: removeAll dir rest := by
        simp [removeAll, List.filter_cons, hq]
      rw [hstep]
      by_cases hqp : q = p
      · subst hqp
        simp [Fs.lookup, hq]
      · unfold Fs.lookup
        simp only [hqp, if_false]
        exact ih
    · have hstep : removeAll dir ((q, n) :: rest) = removeAll dir rest := by
        simp [removeAll, List.filter_cons, hq]
      rw [hstep, ih]
      by_cases hqp : q = p
      · subst hqp
        simp [hq]
      · by_cases hu : pathUnder dir p <;> simp [hu, Fs.lookup, hqp]

/-- A successful `mkdirPaths` never removes or shadows an existing binding. -/
theorem mkdirPaths_lookup_preserved (ps : List FsPath) (fs fs' : Fs)
    (h : mkdirPaths ps fs = .ok fs') (p : FsPath) (n : FsNode)
    (hp : Fs.lookup fs p = some n) : Fs.lookup fs' p = some n := by
  induction ps generalizing fs with
  | nil =>
    cases h
    exact hp
  | cons q rest ih =>
    unfold mkdirPaths at h
    cases hq : Fs.lookup fs q with
    | none =>
      rw [hq] at h
      exact ih (fs ++ [(q, .dir)]) h (lookup_append_of_some fs q .dir p n hp)
    | some m =>
      cases m with
      | file =>
        rw [hq] at h
        cases h
      | dir =>
        rw [hq] at h
        exact ih fs h hp

/-- A successful `mkdirPaths` leaves paths outside the created list untouched. -/
theorem mkdirPaths_lookup_other (ps : List FsPath) (fs fs' : Fs)
    (h : mkdirPaths ps fs = .ok fs') (p : FsPath) (hp : p ∉ ps) :
    Fs.lookup fs' p = Fs.lookup fs p := by
  induction ps generalizing fs with
  | nil =>
    cases h
    rfl
  | cons q rest ih =>
    have hne : q ≠ p := fun he => hp (he ▸ List.mem_cons_self q rest)
    have hrest : p ∉ rest := fun hr => hp (List.mem_cons_of_mem q hr)
    unfold mkdirPaths at h
    cases hq : Fs.lookup fs q with
    | none =>
      rw [hq] at h
      have happ : Fs.lookup (fs ++ [(q, .dir)]) p = Fs.lookup fs p := by
        cases hfp : Fs.lookup fs p with
        | none =>
          rw [lookup_append_of_none fs q .dir p hfp]
          simp [hne]
        | some m => exact lookup_append_of_some fs q .dir p m hfp
      rw [ih (fs ++ [(q, .dir)]) h hrest, happ]
    | some m =>
      cases m with
      | file =>
        rw [hq] at h
        cases h
      | dir =>
        rw [hq] at h
        exact ih fs h hrest

/-- After a successful `mkdirPaths`, every listed path is a directory. -/
theorem mkdirPaths_lookup_mem (ps : List FsPath) (fs fs' : Fs)
    (h : mkdirPaths ps fs = .ok fs') (p : FsPath) (hp : p ∈ ps) :
    Fs.lookup fs' p = some FsNode.dir := by
  induction ps generalizing fs with
  | nil => cases hp
  | cons q rest ih =>
    unfold mkdirPaths at h
    rcases List.mem_cons.mp hp with hpq | hprest
    · subst hpq
      cases hq : Fs.lookup fs p with
      | none =>
        rw [hq] at h
        have : Fs.lookup (fs ++ [(p, .dir)]) p = some .dir := by
          rw [lookup_append_of_none fs p .dir p hq]
          simp
        exact mkdirPaths_lookup_preserved rest (fs ++ [(p, .dir)]) fs' h p .dir this
      | some m =>
        cases m with
        | file =>
          rw [hq] at h
          cases h
        | dir =>
          rw [hq] at h
          exact mkdirPaths_lookup_preserved rest fs fs' h p .dir hq
    · cases hq : Fs.lookup fs q with
      | none =>
        rw [hq] at h
        exact ih (fs ++ [(q, .dir)]) h hprest
      | some m =>
        cases m with
        | file =>
          rw [hq] at h
          cases h
        | dir =>
          rw [hq] at h
          exact ih fs h hprest

/-- `pathUnder` is containment: `p` extends `dir` by some suffix. -/
theorem pathUnder_iff (dir p : FsPath) :
    pathUnder dir p = true ↔ ∃ t : List String, p = dir ++ t := by
  induction dir generalizing p with
  | nil => simp [pathUnder]
  | cons d ds ih =>
    cases p with
    | nil =>
      simp only [pathUnder, Bool.false_eq_true, false_iff]
      rintro ⟨t, ht⟩
      cases ht
    | cons e es =>
      simp only [pathUnder, Bool.and_eq_true, beq_iff_eq, ih]
      constructor
      · rintro ⟨rfl, t, rfl⟩
        exact ⟨t, rfl⟩
      · rintro ⟨t, ht⟩
        rw [List.cons_append] at ht
        cases ht
        exact ⟨rfl, t, rfl⟩

/-- Every path contains itself. -/
theorem pathUnder_refl (p : FsPath) : pathUnder p p = true :=
  (pathUnder_iff p p).mpr ⟨[], by simp⟩

/-- A strict descendant is longer than the directory containing it. -/
theorem pathUnder_length_lt (dir p : FsPath) (h : pathUnder dir p = true)
    (hne : p ≠ dir) : dir.length < p.length := by
  obtain ⟨t, rfl⟩ := (pathUnder_iff dir p).mp h
  cases t with
  | nil => simp at hne
  | cons a ts => simp

/-- Containment bounds the container's length. -/
theorem pathUnder_length_le (dir p : FsPath) (h : pathUnder dir p = true) :
    dir.length ≤ p.length := by
  obtain ⟨t, rfl⟩ := (pathUnder_iff dir p).mp h
  simp

/-- Membership in `ancestorsOf dir`: exactly the nonempty leading portions
of `dir`. -/
theorem mem_ancestorsOf_iff (dir p : FsPath) :
    p ∈ ancestorsOf dir ↔ p ≠ [] ∧ pathUnder p dir = true := by
  unfold ancestorsOf
  simp only [List.mem_map, List.mem_range]
  constructor
  · rintro ⟨k, hk, rfl⟩
    refine ⟨?_, ?_⟩
    · have : (dir.take (k + 1)).length = k + 1 := by
        rw [List.length_take]
        omega
      intro hnil
      rw [hnil] at this
      simp at this
    · exact (pathUnder_iff _ _).mpr ⟨dir.drop (k + 1), (List.take_append_drop _ _).symm⟩
  · rintro ⟨hne, hu⟩
    obtain ⟨t, rfl⟩ := (pathUnder_iff p dir).mp hu
    refine ⟨p.length - 1, ?_, ?_⟩
    · have : 0 < p.length := List.length_pos.mpr hne
      simp only [List.length_append]
      omega
    · have : 0 < p.length := List.length_pos.mpr hne
      rw [show p.length - 1 + 1 = p.length by omega]
      exact List.take_left p t

/-- Any `run` trace that goes beyond the input-file check starts with the
stat and the output-directory preparation, in that order. -/
theorem run_trace_head (w : CliWorld) :
    (run w).1 = [Stage.statInput] ∨
    (run w).1.take 2 = [Stage.statInput, Stage.prepareDir] := by
  unfold run
  repeat' split
  all_goals simp

/-- C9 (amended): `PrepareOutputDir` leaves the output directory existing and
empty, removes everything below it, and does not touch any path that is
neither below it nor one of its ancestors; missing ancestors, however, are
created as directories (so the frame condition holds only outside the
ancestor chain).  In `run`, this preparation happens after the input stat and
before the required-tool check and any encoding. -/
theorem prepareOutputDir_spec (dir : FsPath) (fs fs' : Fs) (hne : dir ≠ [])
    (h : prepareOutputDir dir fs = .ok fs') :
    Fs.lookup fs' dir = some FsNode.dir ∧
    (∀ p : FsPath, pathUnder dir p = true → p ≠ dir → Fs.lookup fs' p = none) ∧
    (∀ p : FsPath, pathUnder dir p = false → pathUnder p dir = false →
      Fs.lookup fs' p = Fs.lookup fs p) ∧
    (∀ p : FsPath, p ≠ [] → pathUnder p dir = true →
      Fs.lookup fs' p = some FsNode.dir) ∧
    (∀ w : CliWorld, Stage.checkTools ∈ (run w).1 ∨ Stage.encode ∈ (run w).1 →
      (run w).1.take 2 = [Stage.statInput, Stage.prepareDir]) := by
  unfold prepareOutputDir mkdirAll at h
  refine ⟨?_, ?_, ?_, ?_, ?_⟩
  · exact mkdirPaths_lookup_mem _ _ _ h dir
      ((mem_ancestorsOf_iff dir dir).mpr ⟨hne, pathUnder_refl dir⟩)
  · intro p hu hpne
    have hnot : p ∉ ancestorsOf dir := by
      intro hmem
      have h1 := ((mem_ancestorsOf_iff dir p).mp hmem).2
      have h2 := pathUnder_length_le p dir h1
      have h3 := pathUnder_length_lt dir p hu hpne
      omega
    rw [mkdirPaths_lookup_other _ _ _ h p hnot, lookup_removeAll]
    simp [hu]
  · intro p hu ha
    have hnot : p ∉ ancestorsOf dir := by
      intro hmem
      rw [((mem_ancestorsOf_iff dir p).mp hmem).2] at ha
      cases ha
    rw [mkdirPaths_lookup_other _ _ _ h p hnot, lookup_removeAll]
    simp [hu]
  · intro p hpne hpu
    exact mkdirPaths_lookup_mem _ _ _ h p
      ((mem_ancestorsOf_iff dir p).mpr ⟨hpne, hpu⟩)
  · intro w hw
    rcases run_trace_head w with h1 | h1
    · rw [h1] at hw
      rcases hw with hw | hw <;> simp at hw
    · exact h1

/-- C9 witness: preparing "output" over a filesystem holding a stale segment
inside it and an unrelated sibling: the directory is emptied and recreated,
the sibling untouched, and a trace that reaches the tool check starts with
stat then prepare. -/
theorem prepareOutputDir_spec_witness :
    Fs.lookup [(["keep"], FsNode.file), (["output"], FsNode.dir)] ["output"] =
      some FsNode.dir ∧
    Fs.lookup [(["keep"], FsNode.file), (["output"], FsNode.dir)]
      ["output", "old.ts"] = none ∧
    Fs.lookup [(["keep"], FsNode.file), (["output"], FsNode.dir)] ["keep"] =
      Fs.lookup [(["output", "old.ts"], FsNode.file), (["keep"], FsNode.file)]
        ["keep"] ∧
    (run ⟨true, [], "", [], true, .ok "30/1", fun _ => none, [0, 1], true, none⟩).1.take 2 =
      [Stage.statInput, Stage.prepareDir] := by
  have h := prepareOutputDir_spec ["output"]
    [(["output", "old.ts"], FsNode.file), (["keep"], FsNode.file)]
    [(["keep"], FsNode.file), (["output"], FsNode.dir)] (by decide) (by decide)
  exact ⟨h.1, h.2.1 ["output", "old.ts"] (by decide) (by decide),
    h.2.2.1 ["keep"] (by decide) (by decide),
    h.2.2.2.2 ⟨true, [], "", [], true, .ok "30/1", fun _ => none, [0, 1], true, none⟩
      (Or.inl (by decide))⟩

/-- C9 counterexample: preparing output directory a/b on an empty filesystem
creates the missing ancestor a — a path outside the output directory is
modified by the preparation step. -/
theorem prepareOutputDir_creates_ancestors :
    prepareOutputDir ["a", "b"] [] =
      .ok [(["a"], FsNode.dir), (["a", "b"], FsNode.dir)] ∧
    Fs.lookup [] ["a"] = none ∧
    Fs.lookup [(["a"], FsNode.dir), (["a", "b"], FsNode.dir)] ["a"] =
      some FsNode.dir ∧
    pathUnder ["a", "b"] ["a"] = false := by decide

/-- C10: after a successful encode the AWS client initialization always runs;
a failed .env load fails the whole job even when no bucket is configured
(publishing would have been skipped), and only the upload pass itself is
gated on a non-empty bucket name. -/
theorem run_initAWSClient_unconditional (w : CliWorld)
    (hin : w.inputExists = true)
    (hprep : ∃ fs', prepareOutputDir (effectiveOutputDir w) w.fs = .ok fs')
    (htools : w.toolsOk = true)
    (henc : (processVideo defaultConfig w.probe w.encodeErr w.completionOrder).outcome =
      .ok ()) :
    Stage.initAws ∈ (run w).1 ∧
    (w.envLoadOk = false →
      (run w).2 = .error "failed to initialize AWS client: error loading .env file") ∧
    (w.s3Bucket = "" → Stage.upload ∉ (run w).1) := by
  obtain ⟨fs', hp⟩ := hprep
  have hshape : run w =
      if !w.envLoadOk then
        ([.statInput, .prepareDir, .checkTools, .encode, .initAws],
         .error "failed to initialize AWS client: error loading .env file")
      else if w.s3Bucket ≠ "" then
        match w.uploadErr with
        | some e =>
          ([.statInput, .prepareDir, .checkTools, .encode, .initAws, .upload],
           .error ("error uploading to S3: " ++ e))
        | none =>
          ([.statInput, .prepareDir, .checkTools, .encode, .initAws, .upload], .ok ())
      else ([.statInput, .prepareDir, .checkTools, .encode, .initAws], .ok ()) := by
    unfold run
    rw [hp]
    simp [hin, htools, henc]
  rw [hshape]
  cases henv : w.envLoadOk with
  | false =>
    rw [if_pos (by simp)]
    exact ⟨by simp, fun _ => rfl, fun _ => by simp⟩
  | true =>
    rw [if_neg (by simp)]
    refine ⟨?_, fun habs => absurd habs (by decide), fun hb => ?_⟩
    · by_cases hb : w.s3Bucket = ""
      · simp [hb]
      · cases hu : w.uploadErr <;> simp [hb, hu]
    · simp [hb]

/-- C10 witness: a world with a successful encode, a failed .env load and no
bucket configured — the job still fails at client initialization and never
reaches the upload stage. -/
theorem run_initAWSClient_unconditional_witness :
    Stage.initAws ∈
      (run ⟨true, [], "", [], true, .ok "30/1", fun _ => none, [0, 1], false, none⟩).1 ∧
    (run ⟨true, [], "", [], true, .ok "30/1", fun _ => none, [0, 1], false, none⟩).2 =
      .error "failed to initialize AWS client: error loading .env file" ∧
    Stage.upload ∉
      (run ⟨true, [], "", [], true, .ok "30/1", fun _ => none, [0, 1], false, none⟩).1 := by
  have h := run_initAWSClient_unconditional
    ⟨true, [], "", [], true, .ok "30/1", fun _ => none, [0, 1], false, none⟩
    rfl ⟨[(["output"], FsNode.dir)], by decide⟩ rfl (by decide)
  exact ⟨h.1, h.2.1 rfl, h.2.2 rfl⟩
